import Mathlib

/-!
Verification of the AED repository's value-set comparison utilities.

The Python sources `compare_value_sets.py` and `treatisie.py` are shallowly
embedded below.  Text is modelled as `List Char`; a file's content is the
list of its lines (each line as produced by Python file iteration, i.e.
usually still carrying its trailing newline character); an optional file is
an `Option` carrying `none` when the path does not exist.  Python `int`
values are modelled as `ℤ` and Python `set` as `Finset ℤ`.
-/

/-- ASCII fragment of the whitespace class used by Python's regex `\s`
and by `str.strip`: space, tab, newline, carriage return, vertical tab,
form feed. -/
def pySpace (c : Char) : Bool :=
  c = ' ' || c = '\t' || c = '\n' || c = '\r' || c = Char.ofNat 11 || c = Char.ofNat 12

/-- Model of Python `str.strip()` (ASCII whitespace fragment). -/
def pyStrip (l : List Char) : List Char :=
  ((l.dropWhile pySpace).reverse.dropWhile pySpace).reverse

/-- Numeric value of an ASCII digit character. -/
def digitVal (c : Char) : ℕ := c.toNat - 48

/-- Value of a non-empty string of ASCII digits, as read by Python `int`. -/
def digitsToNat (ds : List Char) : ℕ :=
  ds.foldl (fun a c => 10 * a + digitVal c) 0

/-- Model of `int(...)` applied to a regex capture consisting of digits. -/
def pyInt (g : List Char) : ℤ := (digitsToNat g : ℤ)

/-!
Model of `VALUE_PATTERN = re.compile(r"\(value\s+(\d+)\)")` used with
`.search`.  The whitespace class and the digit class are disjoint and the
character after the digits must be a literal `)`, so the backtracking
regex semantics coincide with taking maximal runs: at a candidate start
position the literal `(value` must appear, followed by a non-empty
whitespace run, a non-empty digit run, and a closing parenthesis.
`search` returns the capture of the leftmost matching position.
-/

/-- Attempt to match `\(value\s+(\d+)\)` at the head of `l`, returning the
captured digit group. -/
def matchValueAt (l : List Char) : Option (List Char) :=
  match l with
  | '(' :: 'v' :: 'a' :: 'l' :: 'u' :: 'e' :: rest =>
      let sp := rest.takeWhile pySpace
      let r1 := rest.dropWhile pySpace
      let ds := r1.takeWhile Char.isDigit
      let r2 := r1.dropWhile Char.isDigit
      if sp ≠ [] ∧ ds ≠ [] then
        match r2 with
        | ')' :: _ => some ds
        | _ => none
      else none
  | _ => none

/-- Model of `VALUE_PATTERN.search(line)`: capture at the leftmost
position where the pattern matches. -/
def valueSearch : List Char → Option (List Char)
  | [] => none
  | c :: cs =>
      match matchValueAt (c :: cs) with
      | some g => some g
      | none => valueSearch cs

/-!
Model of `TRAILING_NUMBER_PATTERN = re.compile(r"(\d+)\s*$")` used with
`.search`.  Python's `$` (without `MULTILINE`) matches at the end of the
string or just before a trailing newline, and `\s` includes the newline,
so `(\d+)\s*$` matches at a position exactly when a non-empty digit run
starts there and everything after it is whitespace.
-/

/-- Attempt to match `(\d+)\s*$` at the head of `l`. -/
def matchTrailingAt (l : List Char) : Option (List Char) :=
  let ds := l.takeWhile Char.isDigit
  let rest := l.dropWhile Char.isDigit
  if ds ≠ [] ∧ rest.all pySpace then some ds else none

/-- Model of `TRAILING_NUMBER_PATTERN.search(line)`. -/
def trailingSearch : List Char → Option (List Char)
  | [] => none
  | c :: cs =>
      match matchTrailingAt (c :: cs) with
      | some g => some g
      | none => trailingSearch cs

/-- Embedding of `read_unique_values` (compare_value_sets.py, lines 94-101):
for each line, search for the value pattern and insert the captured
integer into the set. -/
def read_unique_values (lines : List (List Char)) : Finset ℤ :=
  lines.foldl (fun values line =>
    match valueSearch line with
    | some g => insert (pyInt g) values
    | none => values) ∅

/-- Embedding of `read_manifest_values` (compare_value_sets.py,
lines 104-111). -/
def read_manifest_values (lines : List (List Char)) : Finset ℤ :=
  lines.foldl (fun values line =>
    match trailingSearch line with
    | some g => insert (pyInt g) values
    | none => values) ∅

/-- Embedding of the ignore filtering in `main` (compare_value_sets.py,
lines 214-216): when the error set is truthy (non-empty) its members are
removed (`difference_update`); an empty error set leaves the set
untouched. -/
def mainFilter (s e : Finset ℤ) : Finset ℤ :=
  if e = ∅ then s else s \ e

/-- Embedding of `missing_in_manifest = sorted(unique_values -
manifest_values)` (main, line 218), taken after the ignore filtering of
both sides. -/
def missingList (a b e : Finset ℤ) : List ℤ :=
  (mainFilter a e \ mainFilter b e).sort (· ≤ ·)

/-- Embedding of `critical_manifest_only = sorted(manifest_values -
unique_values)` (main, line 219). -/
def criticalList (a b e : Finset ℤ) : List ℤ :=
  (mainFilter b e \ mainFilter a e).sort (· ≤ ·)

/-- Digit run possibly containing single underscores between digits, as
accepted by Python `int`; accumulates the numeric value on top of `acc`.
A trailing or doubled underscore is rejected. -/
def pyUnderscoreDigitsAux : ℕ → List Char → Option ℕ
  | acc, [] => some acc
  | _, ['_'] => none
  | acc, '_' :: c :: cs =>
      if c.isDigit then pyUnderscoreDigitsAux (10 * acc + digitVal c) cs else none
  | acc, c :: cs =>
      if c.isDigit then pyUnderscoreDigitsAux (10 * acc + digitVal c) cs else none

/-- Non-empty digit run (with optional single underscores between digits)
and its value. -/
def pyIntDigits : List Char → Option ℕ
  | [] => none
  | c :: cs => if c.isDigit then pyUnderscoreDigitsAux (digitVal c) cs else none

/-- Model of Python `int(...)` on an already-stripped ASCII string: an
optional sign followed by digits; anything else raises `ValueError`,
modelled as `none`. -/
def pyIntParse (l : List Char) : Option ℤ :=
  match l with
  | '-' :: rest => (pyIntDigits rest).map (fun n => -(n : ℤ))
  | '+' :: rest => (pyIntDigits rest).map (fun n => (n : ℤ))
  | _ => (pyIntDigits l).map (fun n => (n : ℤ))

/-- Embedding of `read_error_values` (compare_value_sets.py,
lines 114-127): `none` models an absent path (`path.exists()` false);
otherwise each line is stripped, blank lines are skipped and lines that
fail integer parsing are skipped. -/
def read_error_values : Option (List (List Char)) → Finset ℤ
  | none => ∅
  | some lines =>
      lines.foldl (fun values line =>
        let stripped := pyStrip line
        if stripped = [] then values
        else
          match pyIntParse stripped with
          | some v => insert v values
          | none => values) ∅

/-- The literal two-character marker (right brace followed by comma) that
`load_prefix_descriptions` truncates comments at. -/
def braceComma : List Char := [Char.ofNat 125, ',']

/-- Model of Python's `pat in text` substring test. -/
def containsSub (pat : List Char) : List Char → Bool
  | [] => pat.isEmpty
  | c :: cs => pat.isPrefixOf (c :: cs) || containsSub pat cs

/-- Model of `text.split(pat)[0]` for a non-empty separator `pat`: the
part of `text` before the first occurrence of `pat` (all of `text` when
`pat` does not occur). -/
def takeBeforeSub (pat : List Char) : List Char → List Char
  | [] => []
  | c :: cs => if pat.isPrefixOf (c :: cs) then [] else c :: takeBeforeSub pat cs

/-- Model of `text.split(pat, 1)[1]` for a non-empty separator `pat`: the
part of `text` after the first occurrence of `pat`, or `none` when `pat`
does not occur. -/
def findSubSplit (pat : List Char) : List Char → Option (List Char)
  | [] => if pat.isEmpty then some [] else none
  | c :: cs =>
      if pat.isPrefixOf (c :: cs) then some ((c :: cs).drop pat.length)
      else findSubSplit pat cs

/-- Single-quote character. -/
def squote : Char := Char.ofNat 39

/-- Double-quote character. -/
def dquote : Char := Char.ofNat 34

/-- Model of the source's trailing-quote test: `comment.endswith` of a
double quote, or `comment.endswith` of a single quote. -/
def endsWithQuote (l : List Char) : Bool :=
  match l.reverse with
  | c :: _ => c = dquote || c = squote
  | [] => false

/-- Model of `re.search(r"^\s*(\d+)\s*--\s*(.*)", line)` used by
`load_prefix_descriptions` (line 69): because of the `^` anchor a search
can only match at the start of the string, and since the whitespace
class, the digit class and the literal `-` are pairwise disjoint the
backtracking semantics coincide with taking maximal runs.  Returns the
two captured groups (the ID digits and the raw trailing text, which for
group 2 stops at a newline because `.` does not match newlines). -/
def parseHookLine (line : List Char) : Option (List Char × List Char) :=
  let r0 := line.dropWhile pySpace
  let ds := r0.takeWhile Char.isDigit
  let r1 := r0.dropWhile Char.isDigit
  if ds = [] then none
  else
    match r1.dropWhile pySpace with
    | '-' :: '-' :: r2 =>
        some (ds, (r2.dropWhile pySpace).takeWhile (fun c => c ≠ '\n'))
    | _ => none

/-- Embedding of the comment clean-up in `load_prefix_descriptions`
(lines 76-83): strip, truncate at a literal brace-comma marker if
present (re-stripping), then drop a single trailing quote character if
the text ends with one (re-stripping). -/
def cleanComment (raw : List Char) : List Char :=
  let comment := pyStrip raw
  let comment :=
    if containsSub braceComma comment then pyStrip (takeBeforeSub braceComma comment)
    else comment
  if endsWithQuote comment then pyStrip comment.dropLast else comment

/-- Observable behaviour of a Python `dict` with string keys and values,
as used by `load_prefix_descriptions` and `write_report` (which only ever
call `.get`): a lookup function. -/
abbrev PyDict := List Char → Option (List Char)

/-- The empty dict. -/
def dictEmpty : PyDict := fun _ => none

/-- Model of `mapping[k] = v`. -/
def dictInsert (m : PyDict) (k v : List Char) : PyDict :=
  fun q => if q = k then some v else m q

/-- One iteration of the loop in `load_prefix_descriptions`
(lines 72-90): parse the line, clean the comment, and when the ID has at
least 4 digits store the comment under the first four digits
(overwriting an earlier entry). -/
def hookStep (m : PyDict) (line : List Char) : PyDict :=
  match parseHookLine line with
  | none => m
  | some (full_id, raw) =>
      let comment := cleanComment raw
      if 4 ≤ full_id.length then dictInsert m (full_id.take 4) comment else m

/-- Embedding of `load_prefix_descriptions` (lines 61-91): `none` models
an absent path, which yields the empty mapping. -/
def load_prefix_descriptions : Option (List (List Char)) → PyDict
  | none => dictEmpty
  | some lines => lines.foldl hookStep dictEmpty

/-- Modelled from the spec (section 4.3), for the refinement claim C6:
the clean-up the spec prescribes for the trailing free text — truncate at
a literal brace-comma marker if present, and strip a single trailing
quote character if the text ends with one. -/
def specCleanComment (text : List Char) : List Char :=
  let t := pyStrip text
  let t :=
    if containsSub braceComma t then pyStrip (takeBeforeSub braceComma t)
    else t
  if endsWithQuote t then pyStrip t.dropLast else t

/-- Modelled from the spec (section 4.3): the entry a matching line
contributes for key `k` — defined when the line matches the hook pattern,
its ID has at least 4 digits, and the first four characters of the ID
equal `k`. -/
def specEntryFor (k : List Char) (line : List Char) : Option (List Char) :=
  match parseHookLine line with
  | some (full_id, raw) =>
      if 4 ≤ full_id.length ∧ full_id.take 4 = k then some (specCleanComment raw)
      else none
  | none => none

/-- Modelled from the spec (section 4.3): the description the mapping
associates with key `k` is the one contributed by the last matching line
(last-wins). -/
def specDescriptionAt (k : List Char) (lines : List (List Char)) : Option (List Char) :=
  (lines.filterMap (specEntryFor k)).getLast?

/-- Model of Python `str(v)` for an integer `v`. -/
def pyIntStr (v : ℤ) : List Char :=
  if v < 0 then '-' :: Nat.toDigits 10 v.natAbs else Nat.toDigits 10 v.toNat

/-- Embedding of `str(value)[:4]` in `collect_prefixes` (line 134). -/
def pyKey (v : ℤ) : List Char := (pyIntStr v).take 4

/-- Embedding of the loop of `collect_prefixes` (lines 130-138): the
`seen` set is modelled as a list with membership; a key is emitted the
first time it is encountered. -/
def collectAux : List ℤ → List (List Char) → List (List Char)
  | [], _ => []
  | v :: vs, seen =>
      if pyKey v ∈ seen then collectAux vs seen
      else pyKey v :: collectAux vs (pyKey v :: seen)

/-- Embedding of `collect_prefixes` (compare_value_sets.py,
lines 130-138). -/
def collect_prefixes (values : List ℤ) : List (List Char) :=
  collectAux values []

/-- Modelled from the spec (section 4.4, step 4): the ordered list of
distinct keys in first-encounter order — each key appears at its first
position, with later duplicates removed. -/
def firstOccurrences : List (List Char) → List (List Char)
  | [] => []
  | k :: ks => k :: firstOccurrences (ks.filter (fun q => decide (q ≠ k)))
termination_by l => l.length
decreasing_by
  simp only [List.length_cons]
  exact Nat.lt_succ_of_le (List.length_filter_le _ _)

/-- Decimal digit string of a natural number, as produced by Python
`str` on a non-negative int. -/
def natToStr (n : ℕ) : List Char := Nat.toDigits 10 n

/-- Model of Python `sep.join(parts)`. -/
def joinSep (sep : List Char) : List (List Char) → List Char
  | [] => []
  | [x] => x
  | x :: xs => x ++ sep ++ joinSep sep xs

/-- Insertion of an integer into an ascending list, keeping it sorted. -/
def insertSorted (x : ℤ) : List ℤ → List ℤ
  | [] => [x]
  | y :: ys => if x ≤ y then x :: y :: ys else y :: insertSorted x ys

/-- Model of Python `sorted` on a list of integers (insertion sort). -/
def pySorted (l : List ℤ) : List ℤ := l.foldr insertSorted []

/-- Embedding of `section` (compare_value_sets.py, lines 141-151), named
`consoleSection` because `section` is a Lean keyword.  Each element of
the result is the string printed by one `print` call (`print(" ", x)`
renders as two spaces followed by `x` because of the default separator).
The slice `numbers[:limit]` is only evaluated when `limit > 0`, so
`limit.toNat` is faithful there. -/
def consoleSection (name : List Char) (numbers : List ℤ) (limit : ℤ) : List (List Char) :=
  let numbers := pySorted numbers
  let head := '\n' :: (name ++ ": ".toList ++ natToStr numbers.length)
  if numbers = [] then [head, "  (none)".toList]
  else
    let show_all := limit ≤ 0 ∨ (numbers.length : ℤ) ≤ limit
    let to_show := if show_all then numbers else numbers.take limit.toNat
    [head, "  ".toList ++ joinSep ", ".toList (to_show.map pyIntStr)]
      ++ (if show_all then []
          else ["  ... (".toList ++ pyIntStr ((numbers.length : ℤ) - limit)
                  ++ " more)".toList])

/-- Embedding of the `lines` list built by `write_report`
(compare_value_sets.py, lines 154-203); the file content is the
concatenation (`"".join`) of these strings. -/
def write_report_lines (unique_count manifest_count : ℕ) (pfxs : List (List Char))
    (missing critical : List ℤ) (prefix_descriptions : PyDict) : List (List Char) :=
  ["Prefixes (first 4 digits):\n".toList]
  ++ (if pfxs ≠ [] then
        pfxs.map (fun pk =>
          pk ++ " -- ".toList
            ++ (prefix_descriptions pk).getD "unknown category".toList
            ++ ['\n'])
      else ["(none)\n".toList])
  ++ ["\n".toList,
      "Loaded ".toList ++ natToStr unique_count ++ " unique-pointer values.\n".toList,
      "Loaded ".toList ++ natToStr manifest_count ++ " manifest values.\n".toList,
      "\n".toList]
  ++ ["Missing in manifest: ".toList ++ natToStr missing.length ++ "\n".toList]
  ++ (if missing ≠ [] then missing.map (fun num => pyIntStr num ++ ['\n'])
      else ["(none)\n".toList])
  ++ ["\n".toList,
      "Critical error: manifest-only entries: ".toList
        ++ natToStr critical.length ++ "\n".toList]
  ++ (if critical ≠ [] then critical.map (fun num => pyIntStr num ++ ['\n'])
      else ["(none)\n".toList])

/-- The inputs of one run of `main` (compare_value_sets.py,
lines 207-237): the contents of the two mandatory sources, the contents
of the two optional sources (or `none` for an absent path), and the
display limit.  Argument parsing and path resolution are I/O glue and
are abstracted into this record. -/
structure RunInput where
  uniqueLines : List (List Char)
  itemsLines : List (List Char)
  errorSrc : Option (List (List Char))
  hooksSrc : Option (List (List Char))
  limit : ℤ

/-- Embedding of the pipeline of `main` up to the `lines` list that
`write_report` joins into the report file. -/
def main_report_lines (inp : RunInput) : List (List Char) :=
  let unique_values := read_unique_values inp.uniqueLines
  let manifest_values := read_manifest_values inp.itemsLines
  let error_values := read_error_values inp.errorSrc
  let prefix_descriptions := load_prefix_descriptions inp.hooksSrc
  let unique_values := mainFilter unique_values error_values
  let manifest_values := mainFilter manifest_values error_values
  let missing_in_manifest := (unique_values \ manifest_values).sort (· ≤ ·)
  let critical_manifest_only := (manifest_values \ unique_values).sort (· ≤ ·)
  let pfxs := collect_prefixes missing_in_manifest
  write_report_lines unique_values.card manifest_values.card pfxs
    missing_in_manifest critical_manifest_only prefix_descriptions

/-- The report-file content written by one run: the join of the report
lines (`path.write_text("".join(lines))`). -/
def main_report (inp : RunInput) : List Char :=
  (main_report_lines inp).flatten

/-- Embedding of the console output of `main`: the two `Loaded` prints
(lines 223-224, taken after the ignore filtering) followed by the two
section prints.  The final print of the resolved absolute output path
depends on the filesystem and is not part of the model. -/
def main_console (inp : RunInput) : List (List Char) :=
  let unique_values := read_unique_values inp.uniqueLines
  let manifest_values := read_manifest_values inp.itemsLines
  let error_values := read_error_values inp.errorSrc
  let unique_values := mainFilter unique_values error_values
  let manifest_values := mainFilter manifest_values error_values
  let missing_in_manifest := (unique_values \ manifest_values).sort (· ≤ ·)
  let critical_manifest_only := (manifest_values \ unique_values).sort (· ≤ ·)
  ["Loaded ".toList ++ natToStr unique_values.card ++ " unique-pointer values.".toList,
   "Loaded ".toList ++ natToStr manifest_values.card ++ " manifest values.".toList]
  ++ consoleSection "Missing in manifest".toList missing_in_manifest inp.limit
  ++ consoleSection "Critical error: manifest-only entries".toList
       critical_manifest_only inp.limit

/-!
Embedding of `process_file` from treatisie.py (lines 5-46).
-/

/-- The separator `||` looked for in `Word:` lines. -/
def dblBar : List Char := ['|', '|']

/-- The tag starting `Word:` lines. -/
def wordTag : List Char := "Word:".toList

/-- The tag starting `Found value` lines. -/
def foundTag : List Char := "Found value".toList

/-- The tag introducing the numeric part of a `Found value` line. -/
def valueTag : List Char := "Value:".toList

/-- Console message for a `Word:` line without a `||` separator. -/
def skipNoBarMsg (line : List Char) : List Char :=
  "Skipped line without ".toList ++ [squote, '|', '|', squote]
    ++ ": ".toList ++ line

/-- Console message for a `Found value` line without a `Value:` tag. -/
def skipNoValueMsg (line : List Char) : List Char :=
  "Skipped line without ".toList ++ [squote] ++ "Value:".toList ++ [squote]
    ++ ": ".toList ++ line

/-- Console message for a `Found value` line whose value part does not
start with a digit. -/
def skipNoNumMsg (line : List Char) : List Char :=
  "Skipped line without numeric value: ".toList ++ line

/-- State of the reading loop of `process_file`: the accumulated words,
values and console messages. -/
structure PFState where
  words : List (List Char)
  values : List ℕ
  msgs : List (List Char)

/-- One iteration of the reading loop of `process_file` (treatisie.py,
lines 11-36): the line is stripped; a `Word:` line contributes the
stripped text between the tag and the first `||` (or a skip message); a
`Found value` line contributes the leading digit run of the stripped
text after the first `Value:` (or a skip message); other lines are
ignored. -/
def pfStep (st : PFState) (rawLine : List Char) : PFState :=
  let line := pyStrip rawLine
  if wordTag.isPrefixOf line then
    if containsSub dblBar line then
      { st with words := st.words ++ [pyStrip (takeBeforeSub dblBar (line.drop 5))] }
    else
      { st with msgs := st.msgs ++ [skipNoBarMsg line] }
  else if foundTag.isPrefixOf line then
    match findSubSplit valueTag line with
    | some rest =>
        let value_part := pyStrip rest
        let num_str := value_part.takeWhile Char.isDigit
        if num_str ≠ [] then { st with values := st.values ++ [digitsToNat num_str] }
        else { st with msgs := st.msgs ++ [skipNoNumMsg line] }
    | none => { st with msgs := st.msgs ++ [skipNoValueMsg line] }
  else st

/-- The warning printed when the word and value counts differ
(treatisie.py, lines 39-40). -/
def warnMsg (wl vl : ℕ) : List Char :=
  "Warning: Number of words (".toList ++ natToStr wl
    ++ ") does not match number of values (".toList ++ natToStr vl
    ++ ")".toList

/-- One output line `word::value` with its newline (line 45). -/
def fmtPair (w : List Char) (v : ℕ) : List Char :=
  w ++ ':' :: ':' :: natToStr v ++ ['\n']

/-- The final console message (line 46). -/
def extractedMsg (n : ℕ) : List Char :=
  "Extracted ".toList ++ natToStr n ++ " word-value pairs.".toList

/-- Result of `process_file`: extracted words and values, the lines
written to the output file, and the console output in print order. -/
structure PFResult where
  words : List (List Char)
  values : List ℕ
  outLines : List (List Char)
  console : List (List Char)

/-- Embedding of `process_file` (treatisie.py, lines 5-46): run the
reading loop, write one line per `zip`-pair of words and values, and
print the per-line skip messages, then the count-mismatch warning if
applicable, then the extraction summary. -/
def process_file (lines : List (List Char)) : PFResult :=
  let st := lines.foldl pfStep ⟨[], [], []⟩
  let outLines := (st.words.zip st.values).map (fun p => fmtPair p.1 p.2)
  let console :=
    st.msgs
    ++ (if st.words.length ≠ st.values.length
        then [warnMsg st.words.length st.values.length] else [])
    ++ [extractedMsg (min st.words.length st.values.length)]
  ⟨st.words, st.values, outLines, console⟩

/-- Membership in the fold that both extractors use: an element is in the
result exactly when it was in the accumulator already or some line's
search captures it. -/
theorem mem_foldl_extract (f : List Char → Option (List Char))
    (lines : List (List Char)) (s : Finset ℤ) (x : ℤ) :
    (x ∈ lines.foldl (fun values line =>
      match f line with
      | some g => insert (pyInt g) values
      | none => values) s) ↔
      x ∈ s ∨ ∃ l ∈ lines, ∃ g, f l = some g ∧ pyInt g = x := by
  induction lines generalizing s with
  | nil => simp
  | cons l ls ih =>
      rw [List.foldl_cons]
      cases hf : f l with
      | none =>
          rw [ih]
          constructor
          · rintro (h | ⟨a, ha, hp⟩)
            · exact Or.inl h
            · exact Or.inr ⟨a, List.mem_cons_of_mem l ha, hp⟩
          · rintro (h | ⟨a, ha, g', hg', hx⟩)
            · exact Or.inl h
            · rcases List.mem_cons.mp ha with rfl | ha
              · rw [hf] at hg'
                cases hg'
              · exact Or.inr ⟨a, ha, g', hg', hx⟩
      | some g =>
          rw [ih]
          constructor
          · rintro (h | ⟨a, ha, hp⟩)
            · rcases Finset.mem_insert.mp h with h | h
              · exact Or.inr ⟨l, List.mem_cons_self l ls, g, hf, h.symm⟩
              · exact Or.inl h
            · exact Or.inr ⟨a, List.mem_cons_of_mem l ha, hp⟩
          · rintro (h | ⟨a, ha, g', hg', hx⟩)
            · exact Or.inl (Finset.mem_insert_of_mem h)
            · rcases List.mem_cons.mp ha with rfl | ha
              · rw [hf] at hg'
                cases hg'
                exact Or.inl (hx ▸ Finset.mem_insert_self (pyInt g) s)
              · exact Or.inr ⟨a, ha, g', hg', hx⟩

/-- Claim C2: each extractor returns the set containing exactly the
distinct non-negative integers captured by its pattern, one capture
attempt (search) per line; a line with no match contributes nothing,
and duplicate occurrences collapse to one element (set semantics).
Membership is characterized by the existence of a line whose search
captures the value, and every member is non-negative. -/
theorem claim_C2_extractors (lines : List (List Char)) (x : ℤ) :
    ((x ∈ read_unique_values lines) ↔
      ∃ l ∈ lines, ∃ g, valueSearch l = some g ∧ pyInt g = x)
    ∧ ((x ∈ read_manifest_values lines) ↔
      ∃ l ∈ lines, ∃ g, trailingSearch l = some g ∧ pyInt g = x)
    ∧ ((x ∈ read_unique_values lines) → 0 ≤ x)
    ∧ ((x ∈ read_manifest_values lines) → 0 ≤ x) := by
  refine ⟨?_, ?_, ?_, ?_⟩
  · rw [read_unique_values, mem_foldl_extract]
    simp
  · rw [read_manifest_values, mem_foldl_extract]
    simp
  · intro hx
    rw [read_unique_values, mem_foldl_extract] at hx
    rcases hx with h | ⟨l, _, g, _, hx⟩
    · exact absurd h (Finset.not_mem_empty x)
    · rw [← hx]
      exact Int.natCast_nonneg _
  · intro hx
    rw [read_manifest_values, mem_foldl_extract] at hx
    rcases hx with h | ⟨l, _, g, _, hx⟩
    · exact absurd h (Finset.not_mem_empty x)
    · rw [← hx]
      exact Int.natCast_nonneg _

/-- Witness for claim C2 at concrete inputs. -/
theorem claim_C2_extractors_witness :
    ((7 : ℤ) ∈ read_unique_values ["x (value 7) y".toList] ∧ (0 : ℤ) ≤ 7)
    ∧ ((12 : ℤ) ∈ read_manifest_values ["abc 12".toList] ∧ (0 : ℤ) ≤ 12) := by
  refine ⟨⟨by decide, ?_⟩, ⟨by decide, ?_⟩⟩
  · exact (claim_C2_extractors ["x (value 7) y".toList] 7).2.2.1 (by decide)
  · exact (claim_C2_extractors ["abc 12".toList] 12).2.2.2 (by decide)

/-- Claim C1: after the optional ignore-set subtraction the differ
produces `missing = sorted(A - B)` and `critical = sorted(B - A)`: every
element of `missing` is a member of the filtered A and absent from the
filtered B, every element of `critical` is a member of the filtered B and
absent from the filtered A, and both lists are sorted ascending. -/
theorem claim_C1_set_differ (A B E : Finset ℤ) :
    (∀ x : ℤ, x ∈ missingList A B E ↔ x ∈ mainFilter A E ∧ x ∉ mainFilter B E)
    ∧ (∀ x : ℤ, x ∈ criticalList A B E ↔ x ∈ mainFilter B E ∧ x ∉ mainFilter A E)
    ∧ List.Sorted (· ≤ ·) (missingList A B E)
    ∧ List.Sorted (· ≤ ·) (criticalList A B E) := by
  refine ⟨?_, ?_, ?_, ?_⟩
  · intro x
    simp [missingList, Finset.mem_sort, Finset.mem_sdiff]
  · intro x
    simp [criticalList, Finset.mem_sort, Finset.mem_sdiff]
  · exact Finset.sort_sorted _ _
  · exact Finset.sort_sorted _ _

/-- Claim C3: for every pair of sets obtained after ignore filtering,
`len(missing) + len(critical) + len(A ∩ B) = len(A ∪ B)`. -/
theorem claim_C3_cardinality (A B E : Finset ℤ) :
    (missingList A B E).length + (criticalList A B E).length
      + (mainFilter A E ∩ mainFilter B E).card
      = (mainFilter A E ∪ mainFilter B E).card := by
  rw [missingList, criticalList, Finset.length_sort, Finset.length_sort]
  have h1 := Finset.card_sdiff_add_card_inter (mainFilter A E) (mainFilter B E)
  have h2 := Finset.card_sdiff_add_card_inter (mainFilter B E) (mainFilter A E)
  have h3 := Finset.card_union_add_card_inter (mainFilter A E) (mainFilter B E)
  rw [Finset.inter_comm (mainFilter B E) (mainFilter A E)] at h2
  omega

/-- Claim C4: the ignore-set filter is idempotent: filtering twice with
the same ignore set yields the same result as filtering once. -/
theorem claim_C4_filter_idempotent (S E : Finset ℤ) :
    mainFilter (mainFilter S E) E = mainFilter S E := by
  by_cases h : E = ∅
  · simp [mainFilter, h]
  · simp [mainFilter, h, sdiff_idem]

/-- Claim C5: an absent optional source path makes the ignore-set loader
return the empty set, and makes the prefix-description loader return the
empty mapping; neither raises (both functions are total). -/
theorem claim_C5_absent_sources :
    read_error_values none = (∅ : Finset ℤ)
    ∧ ∀ k : List Char, load_prefix_descriptions none k = none :=
  ⟨rfl, fun _ => rfl⟩

/-- Applying `hookStep` does not change the value at key `k` when the
line contributes no entry for `k`. -/
theorem hookStep_apply_none {m : PyDict} {l k : List Char}
    (he : specEntryFor k l = none) : hookStep m l k = m k := by
  unfold hookStep
  unfold specEntryFor at he
  cases hp : parseHookLine l with
  | none => rfl
  | some p =>
      obtain ⟨full_id, raw⟩ := p
      rw [hp] at he
      simp only at he
      by_cases hlen : 4 ≤ full_id.length
      · have hk : ¬ full_id.take 4 = k := by
          intro hk
          rw [if_pos ⟨hlen, hk⟩] at he
          cases he
        have hk' : ¬ k = full_id.take 4 := fun h => hk h.symm
        simp [hlen, dictInsert, hk']
      · simp [hlen]

/-- Applying `hookStep` stores exactly the contributed entry at key `k`
when the line contributes one. -/
theorem hookStep_apply_some {m : PyDict} {l k e : List Char}
    (he : specEntryFor k l = some e) : hookStep m l k = some e := by
  unfold hookStep
  unfold specEntryFor at he
  cases hp : parseHookLine l with
  | none => rw [hp] at he; cases he
  | some p =>
      obtain ⟨full_id, raw⟩ := p
      rw [hp] at he
      simp only at he
      by_cases hc : 4 ≤ full_id.length ∧ full_id.take 4 = k
      · rw [if_pos hc] at he
        cases he
        simp [hc.1, dictInsert, hc.2.symm]
        rw [specCleanComment, cleanComment]
      · rw [if_neg hc] at he
        cases he

/-- The dict built by folding `hookStep` looks up, at key `k`, the last
entry contributed for `k`, falling back to the initial dict. -/
theorem foldl_hookStep_apply (k : List Char) (lines : List (List Char)) :
    ∀ m : PyDict,
      List.foldl hookStep m lines k =
        (match (lines.filterMap (specEntryFor k)).getLast? with
         | some v => some v
         | none => m k) := by
  induction lines with
  | nil => intro m; rfl
  | cons l ls ih =>
      intro m
      rw [List.foldl_cons, ih]
      cases he : specEntryFor k l with
      | none =>
          rw [List.filterMap_cons_none he]
          cases hg : (ls.filterMap (specEntryFor k)).getLast? with
          | none => simp [hg, hookStep_apply_none he]
          | some v => simp [hg]
      | some e =>
          rw [List.filterMap_cons_some he]
          cases hl : ls.filterMap (specEntryFor k) with
          | nil => simp [hl, hookStep_apply_some he]
          | cons x xs =>
              rw [List.getLast?_cons_cons]
              cases hg : (x :: xs).getLast? with
              | none =>
                  rw [List.getLast?_eq_none_iff] at hg
                  cases hg
              | some v => simp

/-- Claim C6: the prefix-description loader maps, for each line matching
the hook pattern whose ID has at least 4 digits, the first four
characters of the ID to the cleaned comment (truncated at a literal
brace-comma marker if present, with a single trailing quote stripped);
entries with fewer than 4 digits are skipped, and of two lines yielding
the same key the later one's description wins.  Stated as: looking up any
key in the loaded mapping returns exactly what the spec-side description
(last matching entry) prescribes. -/
theorem claim_C6_hook_loader (lines : List (List Char)) (k : List Char) :
    load_prefix_descriptions (some lines) k = specDescriptionAt k lines := by
  rw [load_prefix_descriptions, specDescriptionAt, foldl_hookStep_apply]
  cases hg : (lines.filterMap (specEntryFor k)).getLast? with
  | none => rfl
  | some v => rfl

/-- The loop of `collect_prefixes`, started with an arbitrary seen set,
emits the first occurrences of the not-yet-seen keys. -/
theorem collectAux_eq_firstOccurrences (vs : List ℤ) :
    ∀ seen : List (List Char),
      collectAux vs seen =
        firstOccurrences ((vs.map pyKey).filter (fun q => decide (q ∉ seen))) := by
  induction vs with
  | nil =>
      intro seen
      simp [collectAux, firstOccurrences]
  | cons v vs ih =>
      intro seen
      by_cases hp : pyKey v ∈ seen
      · have hstep : collectAux (v :: vs) seen = collectAux vs seen := by
          simp [collectAux, hp]
        have hfil : (List.map pyKey (v :: vs)).filter (fun q => decide (q ∉ seen))
            = (List.map pyKey vs).filter (fun q => decide (q ∉ seen)) := by
          simp [List.filter_cons, hp]
        rw [hstep, hfil, ih seen]
      · have hstep : collectAux (v :: vs) seen
            = pyKey v :: collectAux vs (pyKey v :: seen) := by
          simp [collectAux, hp]
        have hfil : (List.map pyKey (v :: vs)).filter (fun q => decide (q ∉ seen))
            = pyKey v :: (List.map pyKey vs).filter (fun q => decide (q ∉ seen)) := by
          simp [List.filter_cons, hp]
        rw [hstep, hfil, firstOccurrences]
        congr 1
        rw [ih (pyKey v :: seen), List.filter_filter]
        congr 1
        apply List.filter_congr
        intro a _
        by_cases h1 : a = pyKey v
        · simp [h1]
        · by_cases h2 : a ∈ seen
          · simp [h1, h2]
          · simp [h1, h2]

/-- Every element of `firstOccurrences l` is an element of `l`
(fuel-indexed induction on the length). -/
theorem mem_of_mem_firstOccurrences :
    ∀ (n : ℕ) (l : List (List Char)), l.length ≤ n →
      ∀ x, x ∈ firstOccurrences l → x ∈ l := by
  intro n
  induction n with
  | zero =>
      intro l hl x hx
      have hnil : l = [] := List.length_eq_zero.mp (Nat.le_zero.mp hl)
      subst hnil
      simp [firstOccurrences] at hx
  | succ n ih =>
      intro l hl x hx
      cases l with
      | nil => simp [firstOccurrences] at hx
      | cons k ks =>
          rw [firstOccurrences] at hx
          rcases List.mem_cons.mp hx with rfl | hx
          · exact List.mem_cons_self _ _
          · have hlen : (ks.filter (fun q => decide (q ≠ k))).length ≤ n := by
              have h1 := List.length_filter_le (fun q => decide (q ≠ k)) ks
              simp only [List.length_cons] at hl
              omega
            exact List.mem_cons_of_mem _
              (List.mem_of_mem_filter (ih _ hlen x hx))

/-- The list of first occurrences has no duplicates (fuel-indexed). -/
theorem firstOccurrences_nodup_fuel :
    ∀ (n : ℕ) (l : List (List Char)), l.length ≤ n →
      (firstOccurrences l).Nodup := by
  intro n
  induction n with
  | zero =>
      intro l hl
      have hnil : l = [] := List.length_eq_zero.mp (Nat.le_zero.mp hl)
      subst hnil
      simp [firstOccurrences]
  | succ n ih =>
      intro l hl
      cases l with
      | nil => simp [firstOccurrences]
      | cons k ks =>
          rw [firstOccurrences]
          have hlen : (ks.filter (fun q => decide (q ≠ k))).length ≤ n := by
            have h1 := List.length_filter_le (fun q => decide (q ≠ k)) ks
            simp only [List.length_cons] at hl
            omega
          refine List.nodup_cons.mpr ⟨?_, ih _ hlen⟩
          intro hk
          have hmem := mem_of_mem_firstOccurrences n _ hlen k hk
          have := List.of_mem_filter hmem
          simp at this

/-- The list of first occurrences has no duplicates. -/
theorem firstOccurrences_nodup (l : List (List Char)) :
    (firstOccurrences l).Nodup :=
  firstOccurrences_nodup_fuel l.length l le_rfl

/-- Claim C7: for every sequence of integers the prefix-grouping step
returns (it is a total function, so it cannot raise), producing each
distinct prefix key exactly once in first-encounter order; and for a
value whose decimal representation has at most 4 characters the key is
the value's full decimal string. -/
theorem claim_C7_collect_keys (vs : List ℤ) (v : ℤ) :
    collect_prefixes vs = firstOccurrences (vs.map pyKey)
    ∧ (collect_prefixes vs).Nodup
    ∧ pyKey v =
        (if (pyIntStr v).length ≤ 4 then pyIntStr v else (pyIntStr v).take 4) := by
  have h0 : collect_prefixes vs = firstOccurrences (vs.map pyKey) := by
    rw [collect_prefixes, collectAux_eq_firstOccurrences]
    congr 1
    simp
  refine ⟨h0, ?_, ?_⟩
  · rw [h0]
    exact firstOccurrences_nodup _
  · by_cases h : (pyIntStr v).length ≤ 4
    · rw [pyKey, if_pos h, List.take_of_length_le h]
    · rw [pyKey, if_neg h]

/-- Claim C8 (amended): the two `Loaded` counts rendered to the console
and written into the report file equal the cardinalities of the two sets
after the optional ignore-set subtraction. -/
theorem claim_C8_counts_amended (inp : RunInput) :
    ("Loaded ".toList
        ++ natToStr (mainFilter (read_unique_values inp.uniqueLines)
              (read_error_values inp.errorSrc)).card
        ++ " unique-pointer values.\n".toList) ∈ main_report_lines inp
    ∧ ("Loaded ".toList
        ++ natToStr (mainFilter (read_manifest_values inp.itemsLines)
              (read_error_values inp.errorSrc)).card
        ++ " manifest values.\n".toList) ∈ main_report_lines inp
    ∧ ("Loaded ".toList
        ++ natToStr (mainFilter (read_unique_values inp.uniqueLines)
              (read_error_values inp.errorSrc)).card
        ++ " unique-pointer values.".toList) ∈ main_console inp
    ∧ ("Loaded ".toList
        ++ natToStr (mainFilter (read_manifest_values inp.itemsLines)
              (read_error_values inp.errorSrc)).card
        ++ " manifest values.".toList) ∈ main_console inp := by
  refine ⟨?_, ?_, ?_, ?_⟩ <;>
    simp [main_report_lines, write_report_lines, main_console, List.mem_append]

/-- Counterexample to claim C8 as stated: with a unique-pointer source
containing `(value 1)` and an ignore file containing `1`, one distinct
value is extracted from the first source, but the rendered count is 0,
not 1 — the counts reflect the sets after ignore filtering, not the
extracted sets. -/
theorem claim_C8_counts_counterexample :
    (read_unique_values ["(value 1)\n".toList]).card = 1
    ∧ ("Loaded 0 unique-pointer values.\n".toList ∈
        main_report_lines ⟨["(value 1)\n".toList], [], some ["1\n".toList], none, 50⟩)
    ∧ ("Loaded 1 unique-pointer values.\n".toList ∉
        main_report_lines ⟨["(value 1)\n".toList], [], some ["1\n".toList], none, 50⟩)
    ∧ ("Loaded 1 unique-pointer values.".toList ∉
        main_console ⟨["(value 1)\n".toList], [], some ["1\n".toList], none, 50⟩) := by
  have hA : read_unique_values ["(value 1)\n".toList] = {1} := by decide
  have hB : read_manifest_values ([] : List (List Char)) = ∅ := rfl
  have hE : read_error_values (some ["1\n".toList]) = {1} := by decide
  have h1 : mainFilter {1} {1} = (∅ : Finset ℤ) := by decide
  have h2 : mainFilter ∅ {1} = (∅ : Finset ℤ) := by decide
  have hsort : ((∅ : Finset ℤ) \ ∅).sort (· ≤ ·) = [] := by
    rw [Finset.sdiff_empty]
    exact Finset.sort_empty _
  have hMR : main_report_lines ⟨["(value 1)\n".toList], [], some ["1\n".toList], none, 50⟩
      = write_report_lines 0 0 [] [] [] dictEmpty := by
    simp only [main_report_lines, hA, hB, hE, h1, h2, hsort]
    rfl
  have hMC : main_console ⟨["(value 1)\n".toList], [], some ["1\n".toList], none, 50⟩
      = ["Loaded ".toList ++ natToStr 0 ++ " unique-pointer values.".toList,
         "Loaded ".toList ++ natToStr 0 ++ " manifest values.".toList]
        ++ consoleSection "Missing in manifest".toList [] 50
        ++ consoleSection "Critical error: manifest-only entries".toList [] 50 := by
    simp only [main_console, hA, hB, hE, h1, h2, hsort]
    rfl
  refine ⟨by decide, ?_, ?_, ?_⟩
  · rw [hMR]
    decide
  · rw [hMR]
    decide
  · rw [hMC]
    decide

/-- Claim C9: for every fixed tuple of inputs, two runs of the report
generation produce byte-identical report-file contents and identical
console output: both are deterministic functions of the `RunInput`
record alone (no timestamps, clocks or other ambient state occur in the
embedding). -/
theorem claim_C9_deterministic (i j : RunInput) (h : i = j) :
    main_report i = main_report j ∧ main_console i = main_console j := by
  subst h
  exact ⟨rfl, rfl⟩

/-- Witness for claim C9 at a concrete input. -/
theorem claim_C9_deterministic_witness :
    main_report ⟨["(value 3)\n".toList], ["x 5\n".toList], none, none, 50⟩
      = main_report ⟨["(value 3)\n".toList], ["x 5\n".toList], none, none, 50⟩
    ∧ main_console ⟨["(value 3)\n".toList], ["x 5\n".toList], none, none, 50⟩
      = main_console ⟨["(value 3)\n".toList], ["x 5\n".toList], none, none, 50⟩ :=
  claim_C9_deterministic _ _ rfl

/-- The `get?` of a zip is the pairing of the `get?`s. -/
theorem zip_get?_eq {α β : Type} (l₁ : List α) (l₂ : List β) :
    ∀ i : ℕ,
      (l₁.zip l₂).get? i =
        (match l₁.get? i, l₂.get? i with
         | some a, some b => some (a, b)
         | _, _ => none) := by
  induction l₁ generalizing l₂ with
  | nil =>
      intro i
      cases l₂ <;> cases i <;> rfl
  | cons a as ih =>
      intro i
      cases l₂ with
      | nil =>
          rw [List.zip_nil_right]
          cases h : (a :: as).get? i <;> simp [h]
      | cons b bs =>
          cases i with
          | zero => rfl
          | succ n => simpa using ih bs n

/-- The `i`-th output line of the pairing loop. -/
theorem map_fmtPair_zip_get? (ws : List (List Char)) (vs : List ℕ) (i : ℕ) :
    ((ws.zip vs).map (fun p => fmtPair p.1 p.2)).get? i =
      (match ws.get? i, vs.get? i with
       | some w, some v => some (fmtPair w v)
       | _, _ => none) := by
  rw [List.get?_map, zip_get?_eq]
  cases ws.get? i <;> cases vs.get? i <;> rfl

/-- Claim C10: the companion word/value extractor writes exactly
`min(number of words, number of values)` output lines, pairing the i-th
word with the i-th value as `word::value`; when the counts differ the
warning is among the console prints; surplus entries beyond the shorter
list produce no output line (the `get?` characterization returns `none`
there); and the function is total, so it never raises. -/
theorem claim_C10_pairing (lines : List (List Char)) :
    (process_file lines).outLines.length
      = min (process_file lines).words.length (process_file lines).values.length
    ∧ (∀ i : ℕ,
        (process_file lines).outLines.get? i =
          (match (process_file lines).words.get? i, (process_file lines).values.get? i with
           | some w, some v => some (fmtPair w v)
           | _, _ => none))
    ∧ ((process_file lines).words.length ≠ (process_file lines).values.length →
        warnMsg (process_file lines).words.length (process_file lines).values.length
          ∈ (process_file lines).console) := by
  refine ⟨?_, ?_, ?_⟩
  · simp [process_file, List.length_zip]
  · intro i
    exact map_fmtPair_zip_get? (lines.foldl pfStep ⟨[], [], []⟩).words
      (lines.foldl pfStep ⟨[], [], []⟩).values i
  · intro hne
    simp only [process_file] at hne ⊢
    rw [if_pos hne]
    simp [List.mem_append]

/-- Witness for claim C10 at a concrete input with mismatched counts. -/
theorem claim_C10_pairing_witness :
    warnMsg (process_file ["Word: alpha || junk".toList,
        "Found value at spot Value: 12".toList,
        "Found value Value: 7".toList]).words.length
      (process_file ["Word: alpha || junk".toList,
        "Found value at spot Value: 12".toList,
        "Found value Value: 7".toList]).values.length
    ∈ (process_file ["Word: alpha || junk".toList,
        "Found value at spot Value: 12".toList,
        "Found value Value: 7".toList]).console :=
  (claim_C10_pairing ["Word: alpha || junk".toList,
      "Found value at spot Value: 12".toList,
      "Found value Value: 7".toList]).2.2 (by decide)
